import Mathlib

/-!
Verification development for the dense FUGW solver
(`src/fugw/solvers/dense.py`, class `FUGWSolver`).

The Python source is shallowly embedded below.  Matrices are total
functions `Fin n → Fin m → K` over an exact scalar field (`ℚ` for the
executable parts, `ℝ` where the source takes a square root).  Values of
`rho_s`/`rho_t`, which the source stores as floats that may be
`float("inf")`, are embedded as the inductive `ERho`.  Code of the
repository that is imported by `dense.py` but is not part of the provided
sources (the divergence primitives and the three inner UOT solvers from
`fugw.solvers.utils`, and the `BaseSolver` hyperparameters) is abstracted
as explicit function/record parameters, so every theorem quantifies over
all behaviours of those missing parts.
-/

set_option maxHeartbeats 1000000
set_option linter.unusedVariables false

namespace Fugw

/-- Regularisation mode hyperparameter (`reg_mode` in the source). -/
inductive RegMode
  | joint
  | independent
deriving DecidableEq

/-- The three inner solvers selectable by name in `solve`. -/
inductive SolverKind
  | sinkhorn
  | mm
  | ibpp
deriving DecidableEq

/-- A marginal-relaxation coefficient: a float that is either a finite
value or `float("inf")`. -/
inductive ERho
  | fin (r : ℚ)
  | infty
deriving DecidableEq

/-- Multiplication of a rho coefficient by a (positive) mass, as the
float products `rho_s * mp` on lines 309-310 and 329-330 of the source. -/
def ERho.scale : ERho → ℚ → ERho
  | ERho.infty, _ => ERho.infty
  | ERho.fin r, c => ERho.fin (r * c)

/-- Dense matrices of shape (n, m) over a scalar type. -/
def Mat (K : Type) (n m : ℕ) : Type := Fin n → Fin m → K

/-- `M.T` on a dense matrix. -/
def matT {K : Type} {n m : ℕ} (M : Mat K n m) : Mat K m n := fun i j => M j i

/-- `M.sum()`: total mass of a coupling. -/
def matSum {K : Type} [AddCommMonoid K] {n m : ℕ} (M : Mat K n m) : K :=
  ∑ i, ∑ j, M i j

/-- `pi.sum(1)`: row marginal. -/
def rowSum {K : Type} [AddCommMonoid K] {n m : ℕ} (M : Mat K n m) : Fin n → K :=
  fun i => ∑ j, M i j

/-- `pi.sum(0)`: column marginal. -/
def colSum {K : Type} [AddCommMonoid K] {n m : ℕ} (M : Mat K n m) : Fin m → K :=
  fun j => ∑ i, M i j

/-- `sum(|A - B|)` as computed on line 348 of the source
(`(pi - pi_prev).abs().sum()`). -/
def sumAbsDiff {K : Type} [LinearOrderedField K] {n m : ℕ} (A B : Mat K n m) : K :=
  ∑ i, ∑ j, |A i j - B i j|

/-- Lines 325 and 345 of the source: the half-step mass rescaling
`gamma = (mp / gamma.sum()).sqrt() * gamma`.  The square-root primitive is
a parameter so that the same definition serves the rational loop model and
the real-valued analysis (`sq := Real.sqrt`). -/
def rescaleStep {K : Type} [DivisionRing K] {n m : ℕ}
    (sq : K → K) (mp : K) (g : Mat K n m) : Mat K n m :=
  fun i j => sq (mp / matSum g) * g i j

/-- The two fatal configuration errors raised on lines 187-203. -/
inductive ConfigError
  | balancedCaseUnsupported
  | unregularizedSemiRelaxedUnsupported
deriving DecidableEq

/-- Lines 187-203 of `solve`: hyperparameter validation.  Note that the
second branch's disjunction repeats the same disjunct twice, exactly as in
the source:
`(rho_s == 0 and rho_t == float("inf")) or (rho_s == 0 and rho_t == float("inf"))`. -/
def validateHyperparams (rho_s rho_t : ERho) (eps : ℚ) : Option ConfigError :=
  if rho_s = ERho.infty ∧ rho_t = ERho.infty ∧ eps = 0 then
    some ConfigError.balancedCaseUnsupported
  else if eps = 0 ∧ ((rho_s = ERho.fin 0 ∧ rho_t = ERho.infty) ∨
      (rho_s = ERho.fin 0 ∧ rho_t = ERho.infty)) then
    some ConfigError.unregularizedSemiRelaxedUnsupported
  else none

/-- Lines 206-209 of `solve`: the solver auto-correction ("sanity check").
`mm` with an infinite rho is remapped to `ibpp`, and `sinkhorn` with
`eps = 0` is remapped to `ibpp`. -/
def effectiveSolver (solver : SolverKind) (rho_s rho_t : ERho) (eps : ℚ) : SolverKind :=
  let s1 := if solver = SolverKind.mm ∧ (rho_s = ERho.infty ∨ rho_t = ERho.infty) then
    SolverKind.ibpp else solver
  if s1 = SolverKind.sinkhorn ∧ eps = 0 then SolverKind.ibpp else s1

/-- Lines 308-312 of `solve`: the unbalanced-OT parameter triple passed to
the inner solver for the `gamma` half-step, where `mp = pi.sum()`. -/
def gammaUotParams (rho_s rho_t : ERho) (eps mp : ℚ) (rm : RegMode) :
    ERho × ERho × ℚ :=
  (rho_s.scale mp, rho_t.scale mp,
    if rm = RegMode.joint then mp * eps else eps)

/-- Lines 328-332 of `solve`: the unbalanced-OT parameter triple passed to
the inner solver for the `pi` half-step, where `mg = gamma.sum()` is the
mass of the freshly rescaled `gamma` and `mp = pi.sum()` is still the mass
snapshot taken before the `gamma` half-step.  Observe that the source
reuses `mp` (not `mg`) in `new_eps = mp * eps if reg_mode == "joint" else eps`. -/
def piUotParams (rho_s rho_t : ERho) (eps mp mg : ℚ) (rm : RegMode) :
    ERho × ERho × ℚ :=
  (rho_s.scale mg, rho_t.scale mg,
    if rm = RegMode.joint then mp * eps else eps)

/-- A pair of dual potential vectors (sizes n and m). -/
def Duals (n m : ℕ) : Type := (Fin n → ℚ) × (Fin m → ℚ)

/-- Lines 234-253 of `solve`: initialisation of `(duals_pi, duals_gamma)`.
Sinkhorn starts from zero vectors, `mm` keeps no duals (`None`), and ibpp
starts from one-vectors; a caller-supplied `init_duals` is used for both
couplings when present. -/
def initDualsFor {n m : ℕ} (solver : SolverKind) (init_duals : Option (Duals n m)) :
    Option (Duals n m) × Option (Duals n m) :=
  match solver with
  | SolverKind.sinkhorn =>
      let duals_pi := init_duals.getD (fun _ => 0, fun _ => 0)
      (some duals_pi, some duals_pi)
  | SolverKind.mm => (none, none)
  | SolverKind.ibpp =>
      let duals_pi := init_duals.getD (fun _ => 1, fun _ => 1)
      (some duals_pi, some duals_pi)

/-- The environment of the BCD loop.  `sinkhornFn`, `mmFn` and `ibppFn`
stand for `solver_sinkhorn`, `solver_mm` and `solver_ibpp` (imported by
the source from `fugw.solvers.utils`, which is not among the provided
sources) with their weight and training parameters already partially
applied, exactly as the source builds `self_solver_sinkhorn` etc. on lines
269-292.  `costFn` and `lossFn` stand for the partial applications
`compute_local_biconvex_cost` and `compute_fugw_loss` built on lines
255-267 from `local_biconvex_cost` and `fugw_loss` (both embedded further
below).  `sqrtFn` stands for the floating-point `.sqrt()`, `clock` for the
wall-clock readings appended to `loss_times`, and the remaining fields are
the hyperparameters that `solve` reads from `self` (class `BaseSolver`,
not among the provided sources) or from its arguments. -/
structure LoopEnv (n m : ℕ) where
  sinkhornFn : Mat ℚ n m → Option (Duals n m) → ERho × ERho × ℚ →
    Option (Duals n m) × Mat ℚ n m
  mmFn : Mat ℚ n m → Mat ℚ n m → ERho × ERho × ℚ → Mat ℚ n m
  ibppFn : Mat ℚ n m → Mat ℚ n m → Option (Duals n m) → ERho × ERho × ℚ →
    Option (Duals n m) × Mat ℚ n m
  costFn : Mat ℚ n m → Bool → Mat ℚ n m
  lossFn : Mat ℚ n m → Mat ℚ n m → ℚ × ℚ
  sqrtFn : ℚ → ℚ
  clock : ℕ → ℚ
  rho_s : ERho
  rho_t : ERho
  eps : ℚ
  regMode : RegMode
  nits_bcd : ℕ
  tol_bcd : ℚ
  eval_bcd : ℕ
  early_stopping_threshold : ℚ

/-- The mutable state of the BCD loop: the two couplings, their duals, the
four trace lists, the iteration counter and the last convergence error. -/
structure BCDState (n m : ℕ) where
  pi : Mat ℚ n m
  gamma : Mat ℚ n m
  dualsPi : Option (Duals n m)
  dualsGamma : Option (Duals n m)
  lossSteps : List ℕ
  lossVals : List ℚ
  lossEntropic : List ℚ
  lossTimes : List ℚ
  idx : ℕ
  err : Option ℚ

/-- One full BCD iteration (lines 304-373 of `solve`): snapshot `pi`,
refine `gamma` with the selected inner solver and rescale it, refine `pi`
and rescale it, compute the convergence error, and every `eval_bcd`
iterations evaluate the loss, append to the four trace lists and decide
early stopping.  The returned boolean is the `break` flag of line 371.
One deviation that is unobservable in the returned result: the source
skips the final `idx += 1` when it breaks, while this embedding always
increments `idx` (the final value of `idx` is not part of the result). -/
def bcdIter {n m : ℕ} (P : LoopEnv n m) (solver : SolverKind) (st : BCDState n m) :
    BCDState n m × Bool :=
  let piPrev := st.pi
  let mp := matSum st.pi
  let uotG := gammaUotParams P.rho_s P.rho_t P.eps mp P.regMode
  let costGamma := P.costFn st.pi true
  let dgg : Option (Duals n m) × Mat ℚ n m :=
    match solver with
    | SolverKind.sinkhorn => P.sinkhornFn costGamma st.dualsGamma uotG
    | SolverKind.mm => (st.dualsGamma, P.mmFn costGamma st.gamma uotG)
    | SolverKind.ibpp => P.ibppFn costGamma st.gamma st.dualsGamma uotG
  let gamma := rescaleStep P.sqrtFn mp dgg.2
  let mg := matSum gamma
  let uotP := piUotParams P.rho_s P.rho_t P.eps mp mg P.regMode
  let costPi := P.costFn gamma false
  let dpp : Option (Duals n m) × Mat ℚ n m :=
    match solver with
    | SolverKind.sinkhorn => P.sinkhornFn costPi st.dualsPi uotP
    | SolverKind.mm => (st.dualsPi, P.mmFn costPi st.pi uotP)
    | SolverKind.ibpp => P.ibppFn costPi st.pi st.dualsPi uotP
  let pi := rescaleStep P.sqrtFn mg dpp.2
  let err := sumAbsDiff pi piPrev
  if st.idx % P.eval_bcd = 0 then
    let le := (P.lossFn pi gamma).2
    let brk : Bool :=
      match st.lossEntropic.getLast? with
      | none => false
      | some prev => decide (|prev - le| < P.early_stopping_threshold)
    ({ st with
        pi := pi, gamma := gamma, dualsPi := dpp.1, dualsGamma := dgg.1,
        lossSteps := st.lossSteps ++ [st.idx + 1],
        lossVals := st.lossVals ++ [(P.lossFn pi gamma).1],
        lossEntropic := st.lossEntropic ++ [le],
        lossTimes := st.lossTimes ++ [P.clock st.idx],
        idx := st.idx + 1, err := some err }, brk)
  else
    ({ st with
        pi := pi, gamma := gamma, dualsPi := dpp.1, dualsGamma := dgg.1,
        idx := st.idx + 1, err := some err }, false)

/-- The `while` condition of line 304:
`(err is None or err > self.tol_bcd) and (idx < self.nits_bcd)`. -/
def loopGuard {n m : ℕ} (P : LoopEnv n m) (st : BCDState n m) : Bool :=
  (match st.err with
   | none => true
   | some e => decide (P.tol_bcd < e)) && decide (st.idx < P.nits_bcd)

/-- The BCD `while` loop, driven by explicit fuel.  Each iteration
increments `idx` by exactly one, so `nits_bcd` units of fuel (as supplied
by `solveCore`) make the fuel bound coincide with the source's
`idx < nits_bcd` test and the recursion is never cut short by fuel
exhaustion alone. -/
def bcdLoop {n m : ℕ} (P : LoopEnv n m) (solver : SolverKind) :
    ℕ → BCDState n m → BCDState n m
  | 0, st => st
  | fuel + 1, st =>
    if loopGuard P st then
      let step := bcdIter P solver st
      if step.2 then step.1 else bcdLoop P solver fuel step.1
    else st

/-- Lines 230-301 of `solve`: initialise the couplings from `init_plan`
(or the product measure `ws_dot_wt`), initialise the duals for the
selected solver, evaluate the loss once on the initial couplings and seed
the four trace lists (`loss_steps = [0]`, `loss_times = [0]`). -/
def initState {n m : ℕ} (P : LoopEnv n m) (wswt : Mat ℚ n m)
    (init_plan : Option (Mat ℚ n m)) (solver : SolverKind)
    (init_duals : Option (Duals n m)) : BCDState n m :=
  let pi := init_plan.getD wswt
  let gamma := pi
  let duals := initDualsFor solver init_duals
  { pi := pi, gamma := gamma, dualsPi := duals.1, dualsGamma := duals.2,
    lossSteps := [0], lossVals := [(P.lossFn pi gamma).1],
    lossEntropic := [(P.lossFn pi gamma).2], lossTimes := [0],
    idx := 0, err := none }

/-- The body of `solve` after validation: solver auto-correction, state
initialisation, then the BCD loop. -/
def solveCore {n m : ℕ} (P : LoopEnv n m) (solver : SolverKind) (wswt : Mat ℚ n m)
    (init_plan : Option (Mat ℚ n m)) (init_duals : Option (Duals n m)) :
    BCDState n m :=
  let eff := effectiveSolver solver P.rho_s P.rho_t P.eps
  bcdLoop P eff P.nits_bcd (initState P wswt init_plan eff init_duals)

/-- `solve` as a whole: hyperparameter validation (raising a
`ConfigError`) followed by the BCD computation. -/
def solveModel {n m : ℕ} (P : LoopEnv n m) (solver : SolverKind) (wswt : Mat ℚ n m)
    (init_plan : Option (Mat ℚ n m)) (init_duals : Option (Duals n m)) :
    Except ConfigError (BCDState n m) :=
  match validateHyperparams P.rho_s P.rho_t P.eps with
  | some e => Except.error e
  | none => Except.ok (solveCore P solver wswt init_plan init_duals)

/-- The divergence primitives `compute_approx_kl`, `compute_kl` and
`compute_quad_kl` are imported by the source from `fugw.solvers.utils`,
which is not among the provided sources; `local_biconvex_cost` and
`fugw_loss` below therefore abstract over them, one field per shape at
which the source applies them. -/
structure KlPrims (n m : ℕ) where
  aklRow : (Fin n → ℚ) → (Fin n → ℚ) → ℚ
  aklCol : (Fin m → ℚ) → (Fin m → ℚ) → ℚ
  aklMat : Mat ℚ n m → Mat ℚ n m → ℚ
  klMat : Mat ℚ n m → Mat ℚ n m → ℚ
  quadKlRow : (Fin n → ℚ) → (Fin n → ℚ) → (Fin n → ℚ) → (Fin n → ℚ) → ℚ
  quadKlCol : (Fin m → ℚ) → (Fin m → ℚ) → (Fin m → ℚ) → (Fin m → ℚ) → ℚ
  quadKlMat : Mat ℚ n m → Mat ℚ n m → Mat ℚ n m → Mat ℚ n m → ℚ

/-- The guard of line 68 of the source, `if reg_mode == "joint":`, which
controls whether the entropic term `eps * compute_approx_kl(pi, ws_dot_wt)`
is computed and accumulated.  The source consults only `reg_mode`; `eps`
is an argument here to record that the guard does not depend on it. -/
def entropicTermComputed (rm : RegMode) (eps : ℚ) : Bool :=
  decide (rm = RegMode.joint)

/-- `FUGWSolver.local_biconvex_cost` (lines 22-72 of the source).  The
argument order follows the source's unpacking: `data_const` is
`(X_sqr, Y_sqr, X, Y, D)` with `D` the feature matrix `F` (possibly
`None`), `tuple_weights` is `(ws, wt, ws_dot_wt)` and `hyperparams` is
`(rho_s, rho_t, eps, alpha, reg_mode)`.  Line 43 of the source runs
`cost = torch.zeros_like(D)`, which raises a `TypeError` when `D` is
`None`; that failure is embedded as the `none` result.  Note that the
scalars `compute_approx_kl(pi1, ws)` etc. are added to every entry of the
cost matrix (tensor broadcasting of `cost += rho_s * marginal_cost_dim1`). -/
def local_biconvex_cost {n m : ℕ} (KL : KlPrims n m)
    (pi : Mat ℚ n m) (transpose : Bool)
    (Xsqr : Mat ℚ n n) (Ysqr : Mat ℚ m m) (X : Mat ℚ n n) (Y : Mat ℚ m m)
    (D : Option (Mat ℚ n m))
    (ws : Fin n → ℚ) (wt : Fin m → ℚ) (wswt : Mat ℚ n m)
    (rho_s rho_t : ERho) (eps alpha : ℚ) (rm : RegMode) :
    Option (Mat ℚ n m) :=
  let Xsqr := if transpose then matT Xsqr else Xsqr
  let Ysqr := if transpose then matT Ysqr else Ysqr
  let X := if transpose then matT X else X
  let Y := if transpose then matT Y else Y
  let pi1 := rowSum pi
  let pi2 := colSum pi
  match D with
  | none => none
  | some d =>
    let cost0 : Mat ℚ n m := fun _ _ => 0
    let cost1 := if alpha ≠ 1 then
        fun i j => cost0 i j + (1 - alpha) / 2 * d i j
      else cost0
    let cost2 := if alpha ≠ 0 then
        fun i j => cost1 i j + alpha *
          ((∑ k, Xsqr i k * pi1 k) + (∑ k, Ysqr j k * pi2 k)
            - 2 * ∑ k, ∑ l, X i k * pi k l * Y j l)
      else cost1
    let cost3 := match rho_s with
      | ERho.infty => cost2
      | ERho.fin r => if r ≠ 0 then
          fun i j => cost2 i j + r * KL.aklRow pi1 ws
        else cost2
    let cost4 := match rho_t with
      | ERho.infty => cost3
      | ERho.fin r => if r ≠ 0 then
          fun i j => cost3 i j + r * KL.aklCol pi2 wt
        else cost3
    let cost5 := if entropicTermComputed rm eps then
        fun i j => cost4 i j + eps * KL.aklMat pi wswt
      else cost4
    some cost5

/-- `FUGWSolver.fugw_loss` (lines 74-121 of the source): the pair
`(loss, entropic_loss)` computed from `(pi, gamma)`. -/
def fugw_loss {n m : ℕ} (KL : KlPrims n m) (pi gamma : Mat ℚ n m)
    (Xsqr : Mat ℚ n n) (Ysqr : Mat ℚ m m) (X : Mat ℚ n n) (Y : Mat ℚ m m)
    (D : Option (Mat ℚ n m))
    (ws : Fin n → ℚ) (wt : Fin m → ℚ) (wswt : Mat ℚ n m)
    (rho_s rho_t : ERho) (eps alpha : ℚ) (rm : RegMode) : ℚ × ℚ :=
  let pi1 := rowSum pi
  let pi2 := colSum pi
  let gamma1 := rowSum gamma
  let gamma2 := colSum gamma
  let l0 : ℚ := 0
  let l1 := match D with
    | none => l0
    | some d =>
      if alpha ≠ 1 then
        l0 + (1 - alpha) / 2 *
          ((∑ i, ∑ j, d i j * pi i j) + (∑ i, ∑ j, d i j * gamma i j))
      else l0
  let l2 := if alpha ≠ 0 then
      l1 + alpha *
        ((∑ i, (∑ k, Xsqr i k * gamma1 k) * pi1 i)
          + (∑ j, (∑ k, Ysqr j k * gamma2 k) * pi2 j)
          - 2 * ∑ i, ∑ j, (∑ k, ∑ l, X i k * gamma k l * Y j l) * pi i j)
    else l1
  let l3 := match rho_s with
    | ERho.infty => l2
    | ERho.fin r => if r ≠ 0 then l2 + r * KL.quadKlRow pi1 gamma1 ws ws else l2
  let l4 := match rho_t with
    | ERho.infty => l3
    | ERho.fin r => if r ≠ 0 then l3 + r * KL.quadKlCol pi2 gamma2 wt wt else l3
  let ereg := if rm = RegMode.joint then KL.quadKlMat pi gamma wswt wswt
    else KL.klMat pi wswt + KL.klMat gamma wswt
  (l4, l4 + eps * ereg)

/-- Lines 217-219 of `solve`: `if alpha == 1 or F is None: alpha = 1;
F = None`.  Returns the `(alpha, F)` actually used by the rest of the
call. -/
def normalizeAlphaF {n m : ℕ} (alpha : ℚ) (F : Option (Mat ℚ n m)) :
    ℚ × Option (Mat ℚ n m) :=
  match F with
  | none => (1, none)
  | some f => if alpha = 1 then (1, none) else (alpha, some f)

/-- A floating-point value as relevant to the post-loop degeneracy check:
an ordinary (finite) value, a NaN, or an infinity. -/
inductive FVal
  | val (q : ℚ)
  | nan
  | posInf
  | negInf
deriving DecidableEq

/-- `torch.isnan` on one value. -/
def FVal.isNan : FVal → Bool
  | FVal.nan => true
  | _ => false

/-- Finiteness of one value (`torch.isfinite`). -/
def FVal.isFinite : FVal → Bool
  | FVal.val _ => true
  | _ => false

/-- `M.isnan().any()` on a coupling given as rows of entries. -/
def hasNaN (M : List (List FVal)) : Bool :=
  M.any fun row => row.any FVal.isNan

/-- Presence of any non-finite entry (NaN or an infinity). -/
def hasNonFinite (M : List (List FVal)) : Bool :=
  M.any fun row => row.any fun x => !x.isFinite

/-- Line 375 of the source: the condition under which the post-loop
diagnostic `console.log("There is NaN in coupling")` is emitted.  It tests
`pi.isnan().any() or gamma.isnan().any()` and nothing else. -/
def postLoopWarning (pi gamma : List (List FVal)) : Bool :=
  hasNaN pi || hasNaN gamma

/-- Lines 378-387 of the source: the dictionary returned by `solve`.  Its
keys are exactly `pi`, `gamma`, `duals_pi`, `duals_gamma`, `loss_steps`,
`loss`, `loss_entropic` and `loss_times`; there is no field recording the
outcome of the NaN check. -/
structure SolveResultRecord where
  pi : List (List FVal)
  gamma : List (List FVal)
  dualsPi : Option (List FVal × List FVal)
  dualsGamma : Option (List FVal × List FVal)
  lossSteps : List ℕ
  lossVals : List ℚ
  lossEntropic : List ℚ
  lossTimes : List ℚ
deriving DecidableEq

/-- The return statement of `solve` (lines 378-387): the record is built
from the loop's final values only; in particular it does not depend on the
result of the line-375 NaN check. -/
def assembleResult (pi gamma : List (List FVal))
    (dp dg : Option (List FVal × List FVal))
    (ls : List ℕ) (l le lt : List ℚ) : SolveResultRecord :=
  { pi := pi, gamma := gamma, dualsPi := dp, dualsGamma := dg,
    lossSteps := ls, lossVals := l, lossEntropic := le, lossTimes := lt }

/-! ## Concrete instances used in counterexamples and witnesses -/

/-- A 1x1 real coupling whose single entry is 4, hence of total mass 4. -/
def demoMatR4 : Mat ℝ 1 1 := fun _ _ => 4

/-- A 1x1 rational coupling of mass 1 (the product measure for n = m = 1
with uniform unit weights). -/
def demoW : Mat ℚ 1 1 := fun _ _ => 1

/-- A minimal 1x1 loop environment with simple concrete inner solvers and
hyperparameters `rho_s = inf`, `rho_t = 0`, `eps = 0` — the degenerate
unregularized semi-relaxed configuration in the ordering that the
validation of lines 187-203 fails to reject. -/
def demoEnvInfZero : LoopEnv 1 1 where
  sinkhornFn := fun _ d _ => (d, fun _ _ => 1)
  mmFn := fun _ g _ => g
  ibppFn := fun _ g d _ => (d, g)
  costFn := fun _ _ => fun _ _ => 0
  lossFn := fun _ _ => (0, 0)
  sqrtFn := fun q => q
  clock := fun _ => 0
  rho_s := ERho.infty
  rho_t := ERho.fin 0
  eps := 0
  regMode := RegMode.joint
  nits_bcd := 5
  tol_bcd := 0
  eval_bcd := 1
  early_stopping_threshold := 0

/-! ## Claim C1: the half-step mass rescaling -/

/-- C1 counterexample.  The claim says the rescaling
`gamma *= sqrt(mp / gamma.sum())` makes `gamma`'s total mass equal `mp`
exactly.  With `mp = 1` and a coupling of pre-rescale mass 4 (as the inner
solver may return, since nothing in `solve` constrains its mass), the
rescaled mass is `sqrt(1/4) * 4 = 2`, not `1`. -/
theorem C1_rescale_counterexample :
    matSum (rescaleStep Real.sqrt 1 demoMatR4) = 2 ∧
    matSum (rescaleStep Real.sqrt 1 demoMatR4) ≠ 1 := by
  have h14 : Real.sqrt ((1 : ℝ) / 4) = 1 / 2 := by
    rw [show ((1 : ℝ) / 4) = (1 / 2) ^ 2 by norm_num,
      Real.sqrt_sq (by norm_num : (0:ℝ) ≤ 1 / 2)]
  have h2 : matSum (rescaleStep Real.sqrt 1 demoMatR4) = 2 := by
    simp only [matSum, rescaleStep, demoMatR4, Fin.sum_univ_one]
    rw [h14]
    norm_num
  exact ⟨h2, by rw [h2]; norm_num⟩

/-- C1 (amended): lines 325 and 345 rescale a coupling of pre-rescale mass
`s = gamma.sum()` by `sqrt(mp / s)`, which sets its total mass to the
geometric mean `sqrt(mp * s)` of the two masses — not to `mp` — and the
new mass equals `mp` exactly if and only if the inner solver already
returned a coupling of mass `mp`. -/
theorem C1_rescale_mass_geometric_mean {n m : ℕ} (mp : ℝ) (g : Mat ℝ n m)
    (hmp : 0 < mp) (hg : 0 < matSum g) :
    matSum (rescaleStep Real.sqrt mp g) = Real.sqrt (mp * matSum g) ∧
    (matSum (rescaleStep Real.sqrt mp g) = mp ↔ matSum g = mp) := by
  have hs0 : (0 : ℝ) ≤ matSum g := hg.le
  have hne : matSum g ≠ 0 := ne_of_gt hg
  have hsmul : matSum (rescaleStep Real.sqrt mp g)
      = Real.sqrt (mp / matSum g) * matSum g := by
    simp only [matSum, rescaleStep, ← Finset.mul_sum]
  have hgeo : Real.sqrt (mp / matSum g) * matSum g
      = Real.sqrt (mp * matSum g) := by
    calc Real.sqrt (mp / matSum g) * matSum g
        = Real.sqrt (mp / matSum g) * Real.sqrt ((matSum g) ^ 2) := by
          rw [Real.sqrt_sq hs0]
      _ = Real.sqrt (mp / matSum g * (matSum g) ^ 2) := by
          rw [← Real.sqrt_mul (by positivity) _]
      _ = Real.sqrt (mp * matSum g) := by
          congr 1
          field_simp
          ring
  refine ⟨hsmul.trans hgeo, ?_⟩
  rw [hsmul.trans hgeo]
  constructor
  · intro h
    have h' := (Real.sqrt_eq_iff_mul_self_eq_of_pos hmp).mp h
    exact mul_left_cancel₀ (ne_of_gt hmp) h'.symm
  · intro h
    rw [h, show mp * mp = mp ^ 2 by ring]
    exact Real.sqrt_sq hmp.le

/-- C1 witness: the geometric-mean law applied at `mp = 4` and the
concrete coupling of mass 4; here the masses agree, so the rescaled mass
equals both `sqrt(4 * 4)` and `4`. -/
theorem C1_rescale_mass_geometric_mean_witness :
    matSum (rescaleStep Real.sqrt 4 demoMatR4) = Real.sqrt (4 * matSum demoMatR4) ∧
    (matSum (rescaleStep Real.sqrt 4 demoMatR4) = 4 ↔ matSum demoMatR4 = 4) :=
  C1_rescale_mass_geometric_mean 4 demoMatR4 (by norm_num)
    (by simp [matSum, demoMatR4])

/-! ## Claim C2: unbalanced-OT parameter rescaling for the pi half-step -/

/-- C2 counterexample.  The claim says the pi half-step passes `eps * mg`
in joint mode.  With `eps = 1`, `mp = 2` and `mg = 3` the source's line
331 (`new_eps = mp * eps if reg_mode == "joint" else eps`) yields 2, not
`eps * mg = 3`: the entropic strength is rescaled by the stale mass `mp`
of `pi` taken before the gamma update, not by gamma's new mass. -/
theorem C2_eps_uses_mp_counterexample :
    (piUotParams (ERho.fin 1) (ERho.fin 1) 1 2 3 RegMode.joint).2.2 = 2 ∧
    (piUotParams (ERho.fin 1) (ERho.fin 1) 1 2 3 RegMode.joint).2.2 ≠ 3 := by
  norm_num [piUotParams]

/-- C2 (amended): for the pi half-step, `solve` passes `rho_s * mg` and
`rho_t * mg` (gamma's new mass), but the entropic strength is `eps * mp`
in joint mode — `mp` being `pi.sum()` from before the gamma update — and
`eps` unchanged in independent mode.  These are exactly the parameters
`bcdIter` hands to the inner solver. -/
theorem C2_pi_uot_params (rho_s rho_t : ERho) (eps mp mg : ℚ) :
    piUotParams rho_s rho_t eps mp mg RegMode.joint
      = (rho_s.scale mg, rho_t.scale mg, mp * eps) ∧
    piUotParams rho_s rho_t eps mp mg RegMode.independent
      = (rho_s.scale mg, rho_t.scale mg, eps) :=
  ⟨rfl, rfl⟩

/-! ## Claim C3: fail-fast validation of degenerate hyperparameters -/

/-- C3: the validation accepts `rho_s = inf, rho_t = 0, eps = 0` (the
second branch's disjunction repeats `(rho_s == 0 and rho_t == inf)` twice
instead of covering the swapped ordering), so `solve` silently proceeds to
the BCD loop in that case; the other two configurations of the claim are
rejected as stated. -/
theorem C3_validation_misses_one_ordering :
    validateHyperparams ERho.infty (ERho.fin 0) 0 = none ∧
    validateHyperparams (ERho.fin 0) ERho.infty 0
      = some ConfigError.unregularizedSemiRelaxedUnsupported ∧
    validateHyperparams ERho.infty ERho.infty 0
      = some ConfigError.balancedCaseUnsupported ∧
    (solveModel demoEnvInfZero SolverKind.mm demoW none none).isOk = true := by
  refine ⟨rfl, rfl, rfl, rfl⟩

/-! ## Claim C4: reporting of non-finite couplings -/

/-- C4 counterexample.  A coupling whose single entry is `+inf` is
non-finite, yet the post-loop check of line 375 (`isnan` only) does not
even fire, so nothing at all — result field or log line — reports the
degeneracy to the caller. -/
theorem C4_inf_unreported_counterexample :
    hasNonFinite [[FVal.posInf]] = true ∧
    postLoopWarning [[FVal.posInf]] [[FVal.val 1]] = false := by
  decide

/-- Any matrix containing a NaN contains a non-finite entry. -/
theorem hasNaN_imp_hasNonFinite (M : List (List FVal)) (h : hasNaN M = true) :
    hasNonFinite M = true := by
  simp only [hasNaN, List.any_eq_true] at h
  obtain ⟨row, hrow, x, hx, hnan⟩ := h
  simp only [hasNonFinite, List.any_eq_true]
  refine ⟨row, hrow, x, hx, ?_⟩
  cases x <;> simp_all [FVal.isNan, FVal.isFinite]

/-- C4 (amended): when the post-loop check fires, at least one coupling is
indeed non-finite (the check is sound but incomplete: it sees only NaN),
and the diagnostic is a log line only — the returned record is assembled
from the couplings, duals and trace lists alone, with no degeneracy flag
among its fields, whether or not the check fired. -/
theorem C4_warning_is_log_only (pi gamma : List (List FVal))
    (dp dg : Option (List FVal × List FVal)) (ls : List ℕ) (l le lt : List ℚ)
    (h : postLoopWarning pi gamma = true) :
    (hasNonFinite pi = true ∨ hasNonFinite gamma = true) ∧
    assembleResult pi gamma dp dg ls l le lt
      = { pi := pi, gamma := gamma, dualsPi := dp, dualsGamma := dg,
          lossSteps := ls, lossVals := l, lossEntropic := le,
          lossTimes := lt } := by
  refine ⟨?_, rfl⟩
  rcases Bool.or_eq_true _ _ |>.mp h with h1 | h2
  · exact Or.inl (hasNaN_imp_hasNonFinite pi h1)
  · exact Or.inr (hasNaN_imp_hasNonFinite gamma h2)

/-- C4 witness: the amended statement applied to a coupling containing a
NaN entry. -/
theorem C4_warning_is_log_only_witness :
    (hasNonFinite [[FVal.nan]] = true ∨ hasNonFinite [[FVal.val 0]] = true) ∧
    assembleResult [[FVal.nan]] [[FVal.val 0]] none none [] [] [] []
      = { pi := [[FVal.nan]], gamma := [[FVal.val 0]], dualsPi := none,
          dualsGamma := none, lossSteps := [], lossVals := [],
          lossEntropic := [], lossTimes := [] } :=
  C4_warning_is_log_only [[FVal.nan]] [[FVal.val 0]] none none [] [] [] []
    (by decide)

/-! ## Claim C5: solver auto-correction -/

/-- C5: with `solver="mm"` and an infinite rho, `solve` runs exactly the
computation it runs for `solver="ibpp"`: the auto-correction remaps the
solver name before duals initialisation and the loop, and with
`init_duals = None` the ibpp one-vector duals are produced; likewise —
for every `rho_s`, `rho_t` — `solver="sinkhorn"` with `eps = 0` runs
exactly as `solver="ibpp"`.  Each part carries only its own hypothesis:
the first implication assumes an infinite rho, the second only
`eps = 0`. -/
theorem C5_mm_inf_proceeds_as_ibpp {n m : ℕ} (P : LoopEnv n m)
    (wswt : Mat ℚ n m) (ip : Option (Mat ℚ n m)) (idls : Option (Duals n m)) :
    ((P.rho_s = ERho.infty ∨ P.rho_t = ERho.infty) →
      solveModel P SolverKind.mm wswt ip idls
        = solveModel P SolverKind.ibpp wswt ip idls ∧
      effectiveSolver SolverKind.mm P.rho_s P.rho_t P.eps = SolverKind.ibpp ∧
      (initDualsFor (n := n) (m := m)
          (effectiveSolver SolverKind.mm P.rho_s P.rho_t P.eps) none).1
        = some (fun _ => 1, fun _ => 1)) ∧
    (P.eps = 0 → solveModel P SolverKind.sinkhorn wswt ip idls
      = solveModel P SolverKind.ibpp wswt ip idls) := by
  have hibpp : ∀ rs rt e, effectiveSolver SolverKind.ibpp rs rt e
      = SolverKind.ibpp := by
    intro rs rt e
    simp [effectiveSolver]
  constructor
  · intro h
    have heff : effectiveSolver SolverKind.mm P.rho_s P.rho_t P.eps
        = SolverKind.ibpp := by
      rcases h with h | h <;> simp [effectiveSolver, h]
    refine ⟨?_, heff, by rw [heff]; rfl⟩
    unfold solveModel solveCore
    rw [heff, hibpp]
  · intro hQ
    have hsink : effectiveSolver SolverKind.sinkhorn P.rho_s P.rho_t P.eps
        = SolverKind.ibpp := by
      simp [effectiveSolver, hQ]
    unfold solveModel solveCore
    rw [hsink, hibpp]

/-- C5 witness: both implications discharged on the concrete 1x1
environment, which has `rho_s = inf` and `eps = 0`. -/
theorem C5_mm_inf_proceeds_as_ibpp_witness :
    solveModel demoEnvInfZero SolverKind.mm demoW none none
      = solveModel demoEnvInfZero SolverKind.ibpp demoW none none ∧
    (initDualsFor (n := 1) (m := 1)
        (effectiveSolver SolverKind.mm demoEnvInfZero.rho_s
          demoEnvInfZero.rho_t demoEnvInfZero.eps) none).1
      = some (fun _ => 1, fun _ => 1) ∧
    solveModel demoEnvInfZero SolverKind.sinkhorn demoW none none
      = solveModel demoEnvInfZero SolverKind.ibpp demoW none none := by
  have h := C5_mm_inf_proceeds_as_ibpp demoEnvInfZero demoW none none
  exact ⟨(h.1 (Or.inl rfl)).1, (h.1 (Or.inl rfl)).2.2, h.2 rfl⟩

/-! ## Claim C6: term accumulation and skipping in the local cost -/

/-- A 1x1 instance of the divergence primitives, each returning 0, used to
instantiate counterexamples (the theorems about structure quantify over
all primitives). -/
def demoKl : KlPrims 1 1 where
  aklRow := fun _ _ => 0
  aklCol := fun _ _ => 0
  aklMat := fun _ _ => 0
  klMat := fun _ _ => 0
  quadKlRow := fun _ _ _ _ => 0
  quadKlCol := fun _ _ _ _ => 0
  quadKlMat := fun _ _ _ _ => 0

/-- C6 counterexample, refuting two parts of the claim.  First, with
`F = None` the function does not return a cost matrix with the
Wasserstein term skipped: line 43 (`cost = torch.zeros_like(D)`) fails on
`None`, embedded as the `none` result.  Second, the guard of the entropic
term is `reg_mode == "joint"` alone, so with `eps = 0` and joint mode the
term `compute_approx_kl(pi, ws_dot_wt)` is still computed (and multiplied
by 0) rather than "never computed". -/
theorem C6_skip_counterexample :
    local_biconvex_cost demoKl demoW true demoW demoW demoW demoW none
      (fun _ => 1) (fun _ => 1) demoW (ERho.fin 1) (ERho.fin 1) (1 / 100)
      (1 / 2) RegMode.joint = none ∧
    entropicTermComputed RegMode.joint 0 = true :=
  ⟨rfl, rfl⟩

/-- C6 (amended): with a present feature matrix, `local_biconvex_cost`
accumulates its terms additively into one (n, m) matrix; the Wasserstein
term is skipped exactly when `alpha = 1`, the Gromov term exactly when
`alpha = 0`, each marginal term exactly when its rho is 0 or infinite, and
the entropic term is present exactly when `reg_mode` is joint — with
coefficient `eps`, also when `eps = 0` (so a zero-coefficient entropic
term is still computed); when `F` is `None` the function fails instead of
skipping the Wasserstein term. -/
theorem C6_accumulation {n m : ℕ} (KL : KlPrims n m) (pi : Mat ℚ n m)
    (tr : Bool) (Xsqr : Mat ℚ n n) (Ysqr : Mat ℚ m m) (X : Mat ℚ n n)
    (Y : Mat ℚ m m) (d : Mat ℚ n m) (ws : Fin n → ℚ) (wt : Fin m → ℚ)
    (wswt : Mat ℚ n m) (rho_s rho_t : ERho) (eps alpha : ℚ) (rm : RegMode) :
    local_biconvex_cost KL pi tr Xsqr Ysqr X Y (some d) ws wt wswt rho_s
        rho_t eps alpha rm
      = some (fun i j =>
          (if alpha = 1 then 0 else (1 - alpha) / 2 * d i j)
          + (if alpha = 0 then 0 else alpha *
              ((∑ k, (if tr then matT Xsqr else Xsqr) i k * rowSum pi k)
                + (∑ k, (if tr then matT Ysqr else Ysqr) j k * colSum pi k)
                - 2 * ∑ k, ∑ l, (if tr then matT X else X) i k * pi k l
                    * (if tr then matT Y else Y) j l))
          + (match rho_s with
              | ERho.infty => 0
              | ERho.fin r => if r = 0 then 0 else r * KL.aklRow (rowSum pi) ws)
          + (match rho_t with
              | ERho.infty => 0
              | ERho.fin r => if r = 0 then 0 else r * KL.aklCol (colSum pi) wt)
          + (if rm = RegMode.joint then eps * KL.aklMat pi wswt else 0)) ∧
    local_biconvex_cost KL pi tr Xsqr Ysqr X Y none ws wt wswt rho_s rho_t
        eps alpha rm = none := by
  refine ⟨?_, rfl⟩
  simp only [local_biconvex_cost]
  congr 1
  funext i j
  rcases rho_s with r | _ <;> rcases rho_t with t | _ <;>
    by_cases h1 : alpha = 1 <;> by_cases h0 : alpha = 0 <;>
      by_cases hrm : rm = RegMode.joint <;>
        simp [h1, h0, hrm, entropicTermComputed] <;> split_ifs <;>
          simp_all

/-! ## Claim C7: behaviour of solve with F = None -/

/-- C7: lines 217-219 do force `alpha = 1` (for every caller-supplied
`alpha`) and clear `F`, and with `alpha = 1` the feature matrix makes no
difference to `fugw_loss` (zero Wasserstein contribution to both the base
and the entropic loss).  But the claim's "behaves exactly as if alpha = 1"
breaks inside the BCD loop: `local_biconvex_cost` starts from
`cost = torch.zeros_like(D)` (line 43), which fails on `D = None`
(embedded as the `none` result, third conjunct at a concrete input), even
though the guard `alpha != 1 and D is not None` on line 46 shows the
`None` case was meant to be handled. -/
theorem C7_fnone_forces_alpha_one {n m : ℕ} (KL : KlPrims n m) :
    (∀ alpha : ℚ, normalizeAlphaF (n := n) (m := m) alpha none = (1, none)) ∧
    (∀ (pi gamma : Mat ℚ n m) (Xsqr : Mat ℚ n n) (Ysqr : Mat ℚ m m)
        (X : Mat ℚ n n) (Y : Mat ℚ m m) (d : Mat ℚ n m)
        (ws : Fin n → ℚ) (wt : Fin m → ℚ) (wswt : Mat ℚ n m)
        (rho_s rho_t : ERho) (eps : ℚ) (rm : RegMode),
      fugw_loss KL pi gamma Xsqr Ysqr X Y (some d) ws wt wswt rho_s rho_t
          eps 1 rm
        = fugw_loss KL pi gamma Xsqr Ysqr X Y none ws wt wswt rho_s rho_t
            eps 1 rm) ∧
    local_biconvex_cost demoKl demoW false demoW demoW demoW demoW none
      (fun _ => 1) (fun _ => 1) demoW (ERho.fin 1) (ERho.fin 1) (1 / 100) 1
      RegMode.joint = none := by
  refine ⟨fun alpha => rfl, ?_, rfl⟩
  intro pi gamma Xsqr Ysqr X Y d ws wt wswt rho_s rho_t eps rm
  simp [fugw_loss]

/-! ## Shape lemmas about one BCD iteration -/

/-- Each iteration increments the iteration counter by one. -/
theorem bcdIter_idx {n m : ℕ} (P : LoopEnv n m) (s : SolverKind)
    (st : BCDState n m) : (bcdIter P s st).1.idx = st.idx + 1 := by
  unfold bcdIter
  dsimp only
  split <;> rfl

/-- Each iteration stores as `err` the absolute elementwise difference
between the new `pi` and the snapshot `pi_prev` (line 348). -/
theorem bcdIter_err {n m : ℕ} (P : LoopEnv n m) (s : SolverKind)
    (st : BCDState n m) :
    (bcdIter P s st).1.err
      = some (sumAbsDiff (bcdIter P s st).1.pi st.pi) := by
  unfold bcdIter
  dsimp only
  split <;> rfl

/-- On an eval iteration (`idx % eval_bcd == 0`), each of the four trace
lists grows by exactly one appended entry, and `loss_steps` receives
`idx + 1`. -/
theorem bcdIter_eval_fields {n m : ℕ} (P : LoopEnv n m) (s : SolverKind)
    (st : BCDState n m) (h : st.idx % P.eval_bcd = 0) :
    ∃ a b c : ℚ,
      (bcdIter P s st).1.lossSteps = st.lossSteps ++ [st.idx + 1] ∧
      (bcdIter P s st).1.lossVals = st.lossVals ++ [a] ∧
      (bcdIter P s st).1.lossEntropic = st.lossEntropic ++ [b] ∧
      (bcdIter P s st).1.lossTimes = st.lossTimes ++ [c] := by
  unfold bcdIter
  dsimp only
  rw [if_pos h]
  exact ⟨_, _, _, rfl, rfl, rfl, rfl⟩

/-- On a non-eval iteration the four trace lists are unchanged. -/
theorem bcdIter_noeval_fields {n m : ℕ} (P : LoopEnv n m) (s : SolverKind)
    (st : BCDState n m) (h : ¬st.idx % P.eval_bcd = 0) :
    (bcdIter P s st).1.lossSteps = st.lossSteps ∧
    (bcdIter P s st).1.lossVals = st.lossVals ∧
    (bcdIter P s st).1.lossEntropic = st.lossEntropic ∧
    (bcdIter P s st).1.lossTimes = st.lossTimes := by
  unfold bcdIter
  dsimp only
  rw [if_neg h]
  exact ⟨rfl, rfl, rfl, rfl⟩

/-! ## Loop lemmas -/

/-- When the `while` condition is false the loop leaves the state
untouched, regardless of remaining fuel. -/
theorem bcdLoop_guard_false {n m : ℕ} (P : LoopEnv n m) (s : SolverKind)
    (fuel : ℕ) (st : BCDState n m) (h : loopGuard P st = false) :
    bcdLoop P s fuel st = st := by
  cases fuel <;> simp [bcdLoop, h]

/-- The loop runs at most `fuel` iterations, each adding one to `idx`. -/
theorem bcdLoop_idx_le {n m : ℕ} (P : LoopEnv n m) (s : SolverKind) :
    ∀ (fuel : ℕ) (st : BCDState n m),
      (bcdLoop P s fuel st).idx ≤ st.idx + fuel := by
  intro fuel
  induction fuel with
  | zero => intro st; simp [bcdLoop]
  | succ k ih =>
    intro st
    show (bcdLoop P s (k + 1) st).idx ≤ st.idx + (k + 1)
    rw [bcdLoop]
    by_cases hg : loopGuard P st
    · rw [if_pos hg]
      by_cases hb : (bcdIter P s st).2
      · simp only [hb, if_true]
        rw [bcdIter_idx]
        omega
      · simp only [hb, if_false]
        calc (bcdLoop P s k (bcdIter P s st).1).idx
            ≤ (bcdIter P s st).1.idx + k := ih _
          _ = st.idx + 1 + k := by rw [bcdIter_idx]
          _ ≤ st.idx + (k + 1) := by omega
    · rw [if_neg hg]
      omega

/-- One iteration grows `loss_steps` by at most one entry. -/
theorem bcdIter_lossSteps_len {n m : ℕ} (P : LoopEnv n m) (s : SolverKind)
    (st : BCDState n m) :
    (bcdIter P s st).1.lossSteps.length ≤ st.lossSteps.length + 1 := by
  by_cases h : st.idx % P.eval_bcd = 0
  · obtain ⟨a, b, c, h1, _, _, _⟩ := bcdIter_eval_fields P s st h
    rw [h1]
    simp
  · rw [(bcdIter_noeval_fields P s st h).1]
    omega

/-- The loop grows `loss_steps` by at most one entry per unit of fuel. -/
theorem bcdLoop_lossSteps_len {n m : ℕ} (P : LoopEnv n m) (s : SolverKind) :
    ∀ (fuel : ℕ) (st : BCDState n m),
      (bcdLoop P s fuel st).lossSteps.length ≤ st.lossSteps.length + fuel := by
  intro fuel
  induction fuel with
  | zero => intro st; simp [bcdLoop]
  | succ k ih =>
    intro st
    rw [bcdLoop]
    by_cases hg : loopGuard P st
    · rw [if_pos hg]
      by_cases hb : (bcdIter P s st).2
      · simp only [hb, if_true]
        calc (bcdIter P s st).1.lossSteps.length
            ≤ st.lossSteps.length + 1 := bcdIter_lossSteps_len P s st
          _ ≤ st.lossSteps.length + (k + 1) := by omega
      · simp only [hb, if_false]
        calc (bcdLoop P s k (bcdIter P s st).1).lossSteps.length
            ≤ (bcdIter P s st).1.lossSteps.length + k := ih _
          _ ≤ st.lossSteps.length + 1 + k := by
              have := bcdIter_lossSteps_len P s st
              omega
          _ = st.lossSteps.length + (k + 1) := by omega
    · rw [if_neg hg]
      omega

/-- The `while` condition is false once the recorded error is within
`tol_bcd`. -/
theorem loopGuard_false_of_err {n m : ℕ} (P : LoopEnv n m) (st : BCDState n m)
    (e : ℚ) (he : st.err = some e) (h : e ≤ P.tol_bcd) :
    loopGuard P st = false := by
  unfold loopGuard
  rw [he]
  simp [not_lt.mpr h]

/-- The `while` condition is false once `idx` has reached `nits_bcd`. -/
theorem loopGuard_false_of_idx {n m : ℕ} (P : LoopEnv n m) (st : BCDState n m)
    (h : P.nits_bcd ≤ st.idx) : loopGuard P st = false := by
  unfold loopGuard
  simp [Nat.not_lt.mpr h]

/-! ## Claim C8: termination of the BCD loop -/

/-- C8: the convergence error stored after each iteration is
`sum(|pi - pi_prev|)`; the loop leaves the state untouched as soon as the
error is at most `tol_bcd` or `idx` has reached `nits_bcd` (for any
inner-solver behaviour and any remaining fuel); consequently `solve` runs
at most `nits_bcd` iterations and the returned `loss_steps` trace has at
most `nits_bcd + 1` entries (the pre-loop entry plus at most one per
iteration), e.g. at most 6 when `nits_bcd = 5`. -/
theorem C8_bcd_terminates {n m : ℕ} (P : LoopEnv n m) (solver : SolverKind) :
    (∀ st : BCDState n m,
      (bcdIter P solver st).1.err
        = some (sumAbsDiff (bcdIter P solver st).1.pi st.pi)) ∧
    (∀ (st : BCDState n m) (fuel : ℕ) (e : ℚ),
      st.err = some e → e ≤ P.tol_bcd → bcdLoop P solver fuel st = st) ∧
    (∀ (st : BCDState n m) (fuel : ℕ),
      P.nits_bcd ≤ st.idx → bcdLoop P solver fuel st = st) ∧
    (∀ (wswt : Mat ℚ n m) (ip : Option (Mat ℚ n m))
        (idls : Option (Duals n m)),
      (solveCore P solver wswt ip idls).idx ≤ P.nits_bcd ∧
      (solveCore P solver wswt ip idls).lossSteps.length ≤ P.nits_bcd + 1) := by
  refine ⟨bcdIter_err P solver, ?_, ?_, ?_⟩
  · intro st fuel e he h
    exact bcdLoop_guard_false P solver fuel st (loopGuard_false_of_err P st e he h)
  · intro st fuel h
    exact bcdLoop_guard_false P solver fuel st (loopGuard_false_of_idx P st h)
  · intro wswt ip idls
    constructor
    · have := bcdLoop_idx_le P (effectiveSolver solver P.rho_s P.rho_t P.eps)
        P.nits_bcd (initState P wswt ip
          (effectiveSolver solver P.rho_s P.rho_t P.eps) idls)
      simpa [solveCore, initState] using this
    · have h := bcdLoop_lossSteps_len P
        (effectiveSolver solver P.rho_s P.rho_t P.eps) P.nits_bcd
        (initState P wswt ip
          (effectiveSolver solver P.rho_s P.rho_t P.eps) idls)
      simp only [solveCore, initState]
      simp only [initState, List.length_singleton] at h
      omega

/-- A BCD state whose iteration counter has reached `nits_bcd` of
`demoEnvInfZero` and whose recorded error is zero. -/
def demoStoppedState : BCDState 1 1 where
  pi := demoW
  gamma := demoW
  dualsPi := none
  dualsGamma := none
  lossSteps := [0]
  lossVals := [0]
  lossEntropic := [0]
  lossTimes := [0]
  idx := 5
  err := some 0

/-- C8 witness: in the concrete environment, the loop leaves the stopped
state untouched (its error 0 is within `tol_bcd = 0`), and the concrete
solve produces a `loss_steps` trace of length at most `nits_bcd + 1 = 6`. -/
theorem C8_bcd_terminates_witness :
    demoStoppedState.err = some 0 ∧ (0 : ℚ) ≤ demoEnvInfZero.tol_bcd ∧
    bcdLoop demoEnvInfZero SolverKind.mm 3 demoStoppedState
      = demoStoppedState ∧
    (solveCore demoEnvInfZero SolverKind.mm demoW none none).lossSteps.length
      ≤ demoEnvInfZero.nits_bcd + 1 :=
  ⟨rfl, le_refl 0,
    (C8_bcd_terminates demoEnvInfZero SolverKind.mm).2.1 demoStoppedState 3 0
      rfl (le_refl 0),
    ((C8_bcd_terminates demoEnvInfZero SolverKind.mm).2.2.2 demoW none
      none).2⟩

/-! ## Trace invariants (for claim C10) -/

/-- Invariant of the BCD loop relating the four trace lists: all four
start with the pre-loop entry (step 0, the initial base loss `L0`, the
initial entropic loss `E0`, time 0), have equal lengths, `loss_steps` is
strictly increasing, and every recorded step is at most the current
iteration counter. -/
abbrev TraceInv {n m : ℕ} (L0 E0 : ℚ) (st : BCDState n m) : Prop :=
  st.lossSteps.head? = some 0 ∧
  st.lossVals.head? = some L0 ∧
  st.lossEntropic.head? = some E0 ∧
  st.lossTimes.head? = some 0 ∧
  st.lossVals.length = st.lossSteps.length ∧
  st.lossEntropic.length = st.lossSteps.length ∧
  st.lossTimes.length = st.lossSteps.length ∧
  st.lossSteps.Pairwise (· < ·) ∧
  ∀ x ∈ st.lossSteps, x ≤ st.idx

/-- Appending at the tail preserves the head of a nonempty list. -/
theorem head?_append_singleton {α : Type} (l : List α) (a : α) {x : α}
    (h : l.head? = some x) : (l ++ [a]).head? = some x := by
  cases l with
  | nil => simp at h
  | cons y t => simpa using h

/-- One BCD iteration preserves the trace invariant. -/
theorem traceInv_bcdIter {n m : ℕ} (P : LoopEnv n m) (s : SolverKind)
    (L0 E0 : ℚ) (st : BCDState n m) (hinv : TraceInv L0 E0 st) :
    TraceInv L0 E0 (bcdIter P s st).1 := by
  obtain ⟨h1, h2, h3, h4, h5, h6, h7, h8, h9⟩ := hinv
  have hidx := bcdIter_idx P s st
  by_cases h : st.idx % P.eval_bcd = 0
  · obtain ⟨a, b, c, e1, e2, e3, e4⟩ := bcdIter_eval_fields P s st h
    refine ⟨?_, ?_, ?_, ?_, ?_, ?_, ?_, ?_, ?_⟩
    · rw [e1]; exact head?_append_singleton _ _ h1
    · rw [e2]; exact head?_append_singleton _ _ h2
    · rw [e3]; exact head?_append_singleton _ _ h3
    · rw [e4]; exact head?_append_singleton _ _ h4
    · rw [e1, e2]; simp [h5]
    · rw [e1, e3]; simp [h6]
    · rw [e1, e4]; simp [h7]
    · rw [e1]
      refine List.pairwise_append.mpr ⟨h8, List.pairwise_singleton _ _, ?_⟩
      intro u hu v hv
      have hv' : v = st.idx + 1 := by simpa using hv
      have := h9 u hu
      omega
    · rw [e1, hidx]
      intro x hx
      rcases List.mem_append.mp hx with hx | hx
      · exact le_trans (h9 x hx) (Nat.le_succ _)
      · have : x = st.idx + 1 := by simpa using hx
        omega
  · obtain ⟨e1, e2, e3, e4⟩ := bcdIter_noeval_fields P s st h
    rw [TraceInv, e1, e2, e3, e4, hidx]
    refine ⟨h1, h2, h3, h4, h5, h6, h7, h8, ?_⟩
    intro x hx
    exact le_trans (h9 x hx) (Nat.le_succ _)

/-- The BCD loop preserves the trace invariant. -/
theorem traceInv_bcdLoop {n m : ℕ} (P : LoopEnv n m) (s : SolverKind)
    (L0 E0 : ℚ) :
    ∀ (fuel : ℕ) (st : BCDState n m), TraceInv L0 E0 st →
      TraceInv L0 E0 (bcdLoop P s fuel st) := by
  intro fuel
  induction fuel with
  | zero => intro st h; simpa [bcdLoop] using h
  | succ k ih =>
    intro st h
    rw [bcdLoop]
    by_cases hg : loopGuard P st
    · rw [if_pos hg]
      by_cases hb : (bcdIter P s st).2
      · simp only [hb, if_true]
        exact traceInv_bcdIter P s L0 E0 st h
      · simp only [hb, if_false]
        exact ih _ (traceInv_bcdIter P s L0 E0 st h)
    · rw [if_neg hg]
      exact h

/-- The initial state satisfies the trace invariant for the loss pair
evaluated on the initial couplings. -/
theorem traceInv_initState {n m : ℕ} (P : LoopEnv n m) (s : SolverKind)
    (wswt : Mat ℚ n m) (ip : Option (Mat ℚ n m)) (idls : Option (Duals n m)) :
    TraceInv (P.lossFn (ip.getD wswt) (ip.getD wswt)).1
      (P.lossFn (ip.getD wswt) (ip.getD wswt)).2
      (initState P wswt ip s idls) := by
  refine ⟨rfl, rfl, rfl, rfl, rfl, rfl, rfl, List.pairwise_singleton _ _, ?_⟩
  intro x hx
  have : x = 0 := by simpa [initState] using hx
  omega

/-- On the first iteration (where `idx = 0`, so `idx % eval_bcd == 0`
whatever `eval_bcd` is), the early-stopping break fires exactly when the
newly recorded entropic loss is within `early_stopping_threshold` of the
last previously recorded one. -/
theorem bcdIter_first_break {n m : ℕ} (P : LoopEnv n m) (s : SolverKind)
    (st : BCDState n m) (h0 : st.idx = 0) (E0 : ℚ)
    (hlast : st.lossEntropic.getLast? = some E0) :
    ((bcdIter P s st).2 = true ↔
      |E0 - (P.lossFn (bcdIter P s st).1.pi (bcdIter P s st).1.gamma).2|
        < P.early_stopping_threshold) := by
  unfold bcdIter
  dsimp only
  rw [if_pos (by rw [h0]; exact Nat.zero_mod _), hlast]
  dsimp only
  exact decide_eq_true_iff

/-! ## Claim C10: pre-loop loss evaluation and trace structure -/

/-- C10: `solve` evaluates the loss on the initial couplings before the
loop and seeds the trace with it (`loss_steps = [0]`, `loss` and
`loss_entropic` holding the pre-loop pair), so for every call that passes
validation the returned trace lists all have equal length, `loss_steps`
starts with 0 and is strictly increasing, and already the first
iteration's early-stopping test compares the newly recorded entropic loss
with this pre-loop value. -/
theorem C10_trace_structure {n m : ℕ} (P : LoopEnv n m) (solver : SolverKind)
    (wswt : Mat ℚ n m) (ip : Option (Mat ℚ n m)) (idls : Option (Duals n m)) :
    (solveModel P solver wswt ip idls
      = match validateHyperparams P.rho_s P.rho_t P.eps with
        | some e => Except.error e
        | none => Except.ok (solveCore P solver wswt ip idls)) ∧
    (initState P wswt ip (effectiveSolver solver P.rho_s P.rho_t P.eps)
        idls).lossSteps = [0] ∧
    (initState P wswt ip (effectiveSolver solver P.rho_s P.rho_t P.eps)
        idls).lossVals = [(P.lossFn (ip.getD wswt) (ip.getD wswt)).1] ∧
    (initState P wswt ip (effectiveSolver solver P.rho_s P.rho_t P.eps)
        idls).lossEntropic = [(P.lossFn (ip.getD wswt) (ip.getD wswt)).2] ∧
    (solveCore P solver wswt ip idls).lossSteps.head? = some 0 ∧
    (solveCore P solver wswt ip idls).lossVals.length
      = (solveCore P solver wswt ip idls).lossSteps.length ∧
    (solveCore P solver wswt ip idls).lossEntropic.length
      = (solveCore P solver wswt ip idls).lossSteps.length ∧
    (solveCore P solver wswt ip idls).lossTimes.length
      = (solveCore P solver wswt ip idls).lossSteps.length ∧
    (solveCore P solver wswt ip idls).lossSteps.Pairwise (· < ·) ∧
    ((bcdIter P (effectiveSolver solver P.rho_s P.rho_t P.eps)
        (initState P wswt ip (effectiveSolver solver P.rho_s P.rho_t P.eps)
          idls)).2 = true ↔
      |(P.lossFn (ip.getD wswt) (ip.getD wswt)).2
          - (P.lossFn
              (bcdIter P (effectiveSolver solver P.rho_s P.rho_t P.eps)
                (initState P wswt ip
                  (effectiveSolver solver P.rho_s P.rho_t P.eps) idls)).1.pi
              (bcdIter P (effectiveSolver solver P.rho_s P.rho_t P.eps)
                (initState P wswt ip
                  (effectiveSolver solver P.rho_s P.rho_t P.eps) idls)).1.gamma).2|
        < P.early_stopping_threshold) := by
  have H := traceInv_bcdLoop P (effectiveSolver solver P.rho_s P.rho_t P.eps)
    (P.lossFn (ip.getD wswt) (ip.getD wswt)).1
    (P.lossFn (ip.getD wswt) (ip.getD wswt)).2 P.nits_bcd
    (initState P wswt ip (effectiveSolver solver P.rho_s P.rho_t P.eps) idls)
    (traceInv_initState P (effectiveSolver solver P.rho_s P.rho_t P.eps)
      wswt ip idls)
  refine ⟨rfl, rfl, rfl, rfl, ?_, ?_, ?_, ?_, ?_, ?_⟩
  · exact H.1
  · exact H.2.2.2.2.1
  · exact H.2.2.2.2.2.1
  · exact H.2.2.2.2.2.2.1
  · exact H.2.2.2.2.2.2.2.1
  · exact bcdIter_first_break P
      (effectiveSolver solver P.rho_s P.rho_t P.eps)
      (initState P wswt ip (effectiveSolver solver P.rho_s P.rho_t P.eps)
        idls) rfl (P.lossFn (ip.getD wswt) (ip.getD wswt)).2 rfl

end Fugw
